import Mathlib

/-!
Verification development for the BizzyChills discord-bot repository.

Shallow embedding of the bot's core state and operations:

* the preference / weight store and the voting flow
  (`global_utils.py`, `cogs/persist_commands.py`),
* the map-pool / schema management (`cogs/admin_premier_commands.py`),
* the event-generation commands `addevents` / `addpractices`
  (`cogs/admin_premier_commands.py`),
* the reminder engine: the `eventreminders` sweep, the dedup ledger
  (`Utils.already_logged` / `Utils.log`), the log rotation task, and the
  `remember_reminders` replay (`cogs/tasks_cog.py`).

Conventions used throughout:

* Python dicts are modelled as association lists whose key lists are
  (invariantly) duplicate-free; insertion order is the list order.
* `datetime` instants are modelled at the granularity the code needs:
  seconds (`Int`) for the reminder sweep, calendar day / hour / minute
  records for the schedule-generation commands.
* File contents are `String`s; appending to a file is string append.
-/

/-! ## Strings: Python's `in` (substring test) and `str.title` -/

/-- Python's `needle in hay` substring test on strings. -/
def strContains (hay needle : String) : Bool :=
  decide (needle.data <:+: hay.data)

/-- One step of Python's `str.title`: the boolean argument records whether
the previous character was alphabetic. -/
def pyTitleAux : Bool → List Char → List Char
  | _, [] => []
  | prevAlpha, c :: cs =>
    let c' := if c.isAlpha then (if prevAlpha then c.toLower else c.toUpper) else c
    c' :: pyTitleAux c.isAlpha cs

/-- Python's `str.title` (ASCII behaviour): the first letter of every run of
letters is upper-cased, the rest lower-cased. -/
def pyTitle (s : String) : String :=
  ⟨pyTitleAux false s.data⟩

/-! ## Association-list helpers (models of Python dict operations) -/

/-- `d.get (k)`: first value stored under key `k`, if any. -/
def alGet {α : Type} (l : List (String × α)) (k : String) : Option α :=
  (l.find? (fun p => p.1 == k)).map Prod.snd

/-- `d[k] = v` when the key is already present: update in place (no reorder).
If the key is absent the list is returned unchanged (the Python code this
models only ever assigns to keys that are present; on an absent key it would
raise `KeyError`). -/
def alUpdate {α : Type} (l : List (String × α)) (k : String) (v : α) : List (String × α) :=
  l.map (fun p => if p.1 == k then (k, v) else p)

/-- `d[k] = v` as a dict upsert: update in place when present, append when
absent (Python dicts append new keys at the end). -/
def alUpsert {α : Type} (l : List (String × α)) (k : String) (v : α) : List (String × α) :=
  if (l.map Prod.fst).contains k then alUpdate l k v else l ++ [(k, v)]

/-- Same as `alGet` for inner per-user dicts keyed by an integer user id. -/
def userGet {α : Type} (l : List (Int × α)) (k : Int) : Option α :=
  (l.find? (fun p => p.1 == k)).map Prod.snd

/-- `d[k] = v` upsert for inner per-user dicts. -/
def userUpsert {α : Type} (l : List (Int × α)) (k : Int) (v : α) : List (Int × α) :=
  if (l.map Prod.fst).contains k then
    l.map (fun p => if p.1 == k then (k, v) else p)
  else l ++ [(k, v)]

/-! ## PreferenceStore state

`global_utils.map_preferences : dict[str, dict[int, int]]` maps a map name to
the per-user votes for it; `global_utils.map_weights : dict[str, int]` maps a
map name to its denormalized weight. -/

/-- The 2-level preference dict: map name ↦ (user id ↦ vote). -/
abbrev Prefs := List (String × List (Int × Int))

/-- The weight dict: map name ↦ weight. -/
abbrev Weights := List (String × Int)

/-- Sum of the per-user votes stored for one map (what the spec says the
weight must always equal). -/
def sumVotes (votes : List (Int × Int)) : Int :=
  (votes.map Prod.snd).sum

/-- The vote stored for `(mapName, userId)`, if any. -/
def storedVote (prefs : Prefs) (mapName : String) (userId : Int) : Option Int :=
  (alGet prefs mapName).bind (fun votes => userGet votes userId)

/-! ## `persist_commands.VotingButtons.save_preference` (the voting flow)

```python
if global_utils.map_preferences[map_name].get(user_id, -2) == preference:
    return
global_utils.map_preferences[map_name][user_id] = preference
global_utils.map_weights[map_name] += preference
```

The subsequent SQL persists exactly the in-memory values, so the in-memory
pair `(map_preferences, map_weights)` is the program state the claims are
about.  (The early `return` on an unchanged vote happens before any
mutation, in memory or in the database.) -/
def save_preference (prefs : Prefs) (weights : Weights)
    (mapName : String) (userId : Int) (preference : Int) : Prefs × Weights :=
  if (userGet ((alGet prefs mapName).getD []) userId).getD (-2) = preference then
    (prefs, weights)
  else
    (alUpdate prefs mapName (userUpsert ((alGet prefs mapName).getD []) userId preference),
     alUpdate weights mapName ((alGet weights mapName).getD 0 + preference))

/-! ## `Utils.save_weights` and `Utils.save_preferences` (`global_utils.py`)

```python
def save_weights(self):
    for map_name, user_weights in self.map_preferences.items():
        self.map_weights[map_name] = sum(user_weights.values())
    self.map_weights = dict(sorted(self.map_weights.items(),
                                   key=lambda item: item[1], reverse=True))
```
-/
def save_weights (prefs : Prefs) (weights : Weights) : Weights :=
  let updated := prefs.foldl (fun w p => alUpsert w p.1 (sumVotes p.2)) weights
  updated.mergeSort (fun a b => decide (b.2 ≤ a.2))

/-- `Utils.save_preferences` (the in-memory effect on the preference dict):

```python
self.map_preferences = {k: self.map_preferences[k] for k in sorted(self.map_preferences)}
if self.teammate_ids:
    for map_name in self.map_preferences.keys():
        prefs = self.map_preferences[map_name]
        self.map_preferences[map_name] = {
            u_id: prefs[u_id] for u_id in prefs if int(u_id) in self.teammate_ids}
```

The result is then written to `map_preferences.json` verbatim, so it is also
the persisted store.  JSON string keys `u_id` are modelled directly as the
integer ids they denote (the code converts with `int(u_id)`). -/
def save_preferences (teammateIds : List Int) (prefs : Prefs) : Prefs :=
  let sortedPrefs := prefs.mergeSort (fun a b => decide (a.1 ≤ b.1))
  if teammateIds.isEmpty then sortedPrefs
  else sortedPrefs.map (fun p => (p.1, p.2.filter (fun q => teammateIds.contains q.1)))

/-! ## The dedup ledger: `Utils.log` and `Utils.already_logged`

`Utils.log` appends `f"[{now}] {message}\n"` to the current day's log file
(preceded by a 50-dash separator line when the message contains
`"connected to Discord"`); `Utils.already_logged` is a plain substring test
over that file's contents.  Timestamps are rendered by `fmtStamp`: the exact
`strftime` format is immaterial to every claim, only that the rendering is a
function of the instant, so the model uses the decimal rendering. -/

/-- Canonical rendering of an instant (stands in for `strftime`). -/
def fmtStamp (t : Int) : String := toString t

/-- The separator line `"-" * 50 + "\n"` written before session-start
messages. -/
def sepLine : String := ⟨List.replicate 50 (Char.ofNat 45)⟩

/-- `Utils.log`: append one timestamped line to the log file contents. -/
def utilsLog (log : String) (now : Int) (message : String) : String :=
  log ++ (if strContains message "connected to Discord" then sepLine ++ "\n" else "")
      ++ "[" ++ fmtStamp now ++ "] " ++ message ++ "\n"

/-- `Utils.already_logged`:

```python
if log_message == "":
    return False
with open(self.log_filepath, ...) as file:
    log_contents = file.read()
return log_message in log_contents if log_contents != "" else False
```

`logContents` is the contents of the file at `self.log_filepath`. -/
def already_logged (logContents : String) (logMessage : String) : Bool :=
  if logMessage = "" then false
  else if logContents ≠ "" then strContains logContents logMessage
  else false

/-! ## `TasksCog`: the event-reminder sweep (`cogs/tasks_cog.py`)

A Discord scheduled event, reduced to the fields the sweep reads.  Start
times are UTC instants in seconds; `time_remaining` is
`(event.start_time - datetime.now(pytz.utc)).total_seconds()` (the events
the bot creates sit on whole seconds, so `Int` seconds are exact). -/

inductive EventStatus where
  | scheduled
  | active
  | completed
  | canceled
deriving DecidableEq, Repr

structure SEvent where
  name : String
  description : String
  startTime : Int
  status : EventStatus
deriving DecidableEq, Repr

/-- `self.premier_reminder_types = ["start", "prestart"]`. -/
def premierReminderTypes : List String := ["start", "prestart"]

/-- `TasksCog.get_reminder_type`: classify an event by its remaining time and
apply the status transition the classifier performs as a side effect
(`event.start()` / `event.end()` / `event.cancel()`).  Returns the reminder
type (`""` when no reminder is due) together with the event's new status.

```python
time_remaining = (event.start_time - datetime.now(pytz.utc)).total_seconds()
reminder_type = ""
if time_remaining <= 0:
    if time_remaining >= -60 * 10:
        reminder_type = self.premier_reminder_types[0]
        if event.status == discord.EventStatus.scheduled:
            await event.start()
    elif time_remaining <= -3600:
        if event.status == discord.EventStatus.active:
            await event.end()
        elif event.status == discord.EventStatus.scheduled:
            await event.cancel()
elif time_remaining <= 3600:
    reminder_type = self.premier_reminder_types[1]
return reminder_type
```
-/
def get_reminder_type (now : Int) (e : SEvent) : String × EventStatus :=
  let timeRemaining := e.startTime - now
  if timeRemaining ≤ 0 then
    if timeRemaining ≥ -(60 * 10) then
      (premierReminderTypes.getD 0 "",
       if e.status = EventStatus.scheduled then EventStatus.active else e.status)
    else if timeRemaining ≤ -3600 then
      ("",
       if e.status = EventStatus.active then EventStatus.completed
       else if e.status = EventStatus.scheduled then EventStatus.canceled
       else e.status)
    else ("", e.status)
  else if timeRemaining ≤ 3600 then
    (premierReminderTypes.getD 1 "", e.status)
  else ("", e.status)

/-- The event with the status transition of `get_reminder_type` applied. -/
def applyReminder (now : Int) (e : SEvent) : SEvent :=
  { e with status := (get_reminder_type now e).2 }

/-- The canonical dedup-ledger line body for a reminder
(`tasks_cog.py`, `eventreminders`):

```python
log_message = (f"Posted '{reminder_type}' reminder for event: "
               f"{event.name} on {event.description}" +
               f"starting at {log_time} EST")
```

(The source string really has no space between the description and
`"starting"`.)  `log_time` is the event's start time rendered via `strftime`;
see `fmtStamp`. -/
def reminderLogMessage (reminderType : String) (e : SEvent) : String :=
  "Posted \x27" ++ reminderType ++ "\x27 reminder for event: " ++ e.name ++ " on "
    ++ e.description ++ "starting at " ++ fmtStamp e.startTime ++ " EST"

/-- One event's step of the `eventreminders` loop body: classify, dedup-check
against the ledger, send (recorded as `some message`) and append to the
ledger.  Returns the updated event, the updated log-file contents, and the
message sent (if any). -/
def sweepStep (now : Int) (log : String) (e : SEvent) : SEvent × String × Option String :=
  let rt := (get_reminder_type now e).1
  let e' := applyReminder now e
  if rt = "" then (e', log, none)
  else
    let msg := reminderLogMessage rt e
    if already_logged log msg then (e', log, none)
    else (e', utilsLog log now msg, some msg)

/-- The `for event in events:` loop of `eventreminders`, threading the ledger
through the events and collecting the messages actually sent, in order. -/
def sweepEvents (now : Int) : List SEvent → String → List SEvent × String × List String
  | [], log => ([], log, [])
  | e :: es, log =>
    let step := sweepStep now log e
    let rest := sweepEvents now es step.2.1
    (step.1 :: rest.1, rest.2.1,
     match step.2.2 with
     | some msg => msg :: rest.2.2
     | none => rest.2.2)

/-- The whole `eventreminders` task body: it first logs
`"Checking for event reminders"` and then runs the loop over the pending
events.  The traversal order of the events (`get_all_events` sorts them by
start time, newest first) does not affect any claim, so the list is taken as
given. -/
def eventreminders (now : Int) (events : List SEvent) (log : String) :
    List SEvent × String × List String :=
  sweepEvents now events (utilsLog log now "Checking for event reminders")

/-! ## Dated log files and the midnight rotation (`Utils.__init__`,
`TasksCog.latest_logs`)

```python
self.log_date = datetime.now().strftime("%Y-%m-%d")
self.log_filepath = f'./logs/{self.log_date}_stdout.log'
```

The ledger path embeds the current date, so the file system is modelled as a
map from dates (day numbers) to file contents, plus the `log_date` the
`Utils` singleton currently points at. -/

structure LogFiles where
  logDate : Nat
  files : Nat → String

/-- `Utils.already_logged` as it actually runs: the substring check is made
against the contents of the file for the *current* `log_date` only. -/
def alreadyLoggedState (s : LogFiles) (msg : String) : Bool :=
  already_logged (s.files s.logDate) msg

/-- `TasksCog.latest_logs` (the midnight rotation task):

```python
new_date = datetime.now().strftime("%Y-%m-%d")
if new_date != global_utils.log_date:
    global_utils.log("Starting new log file")     # goes to the OLD file
    global_utils.log_date = new_date
    global_utils.log_filepath = f"./logs/{global_utils.log_date}_stdout.log"
```

(The `sys.stdout` / `sys.stderr` redirection does not touch the ledger.) -/
def latest_logs (s : LogFiles) (now : Int) (newDate : Nat) : LogFiles :=
  if newDate ≠ s.logDate then
    { logDate := newDate,
      files := fun d =>
        if d = s.logDate then utilsLog (s.files s.logDate) now "Starting new log file"
        else s.files d }
  else s

/-! ## `TasksCog.remember_reminders` (the startup replay of `/remind` timers)

`global_utils.reminders` is a dict `whenISO ↦ [(guild_id, message), ...]`.
The ISO keys produced by `/remind` (`datetime.isoformat()`) sort
lexicographically in chronological order, so the model uses integer instants
directly and `sorted(reminder_iter.keys())` becomes a sort on those instants.

```python
reminder_iter = deepcopy(global_utils.reminders)
sorted_keys = sorted(reminder_iter.keys())
reminder_iter = {k: reminder_iter[k] for k in sorted_keys}
for time_str, reminders in reminder_iter.items():
    reminder_time = datetime.fromisoformat(time_str)
    for reminder_info in reminders:
        ...
        if reminder_time < datetime.now():
            await channel.send(reminder_message + "\n(this reminder was ...")
        else:
            await sleep((reminder_time - datetime.now()).total_seconds())
            await channel.send(reminder_message)
        global_utils.reminders[time_str] = [r for r in reminders if r != reminder_info]
        global_utils.save_reminders()
```

The wall clock is threaded explicitly: `sleep` advances it to the reminder's
time.  Note that the per-fire store update filters the *deep-copied snapshot*
`reminders`, not the current stored list. -/

/-- The durable reminder store: time ↦ list of (guild id, message). -/
abbrev ReminderStore := List (Int × List (Int × String))

/-- `Utils.discord_local_time`: `f"<t:{int(epoch_time)}:R>"`. -/
def discord_local_time (t : Int) : String :=
  "<t:" ++ toString t ++ ":R>"

/-- One delivered reminder: when it was keyed for, where it went, the exact
message text sent, whether it took the missed (past-due) branch, and the
clock value at which it was sent. -/
structure FiredReminder where
  timeKey : Int
  guildId : Int
  message : String
  missed : Bool
  firedAt : Int
deriving DecidableEq, Repr

/-- The inner `for reminder_info in reminders:` loop for one key.
`snapshot` is the deep-copied list for this key (fixed for the whole loop);
the store update after each fire assigns
`[r for r in snapshot if r != reminder_info]`. -/
def replayKey (timeKey : Int) (snapshot : List (Int × String)) :
    List (Int × String) → Int → ReminderStore → List FiredReminder →
    Int × ReminderStore × List FiredReminder
  | [], clock, store, fired => (clock, store, fired)
  | r :: rs, clock, store, fired =>
    let missed := timeKey < clock
    let clock' := if missed then clock else timeKey
    let msg :=
      if missed then
        r.2 ++ "\n(this reminder was supposed to go off at "
            ++ discord_local_time timeKey ++ "."
      else r.2
    let store' := store.map (fun p =>
      if p.1 == timeKey then (timeKey, snapshot.filter (fun q => q ≠ r)) else p)
    replayKey timeKey snapshot rs clock'
      store' (fired ++ [⟨timeKey, r.1, msg, missed, clock'⟩])

/-- The outer loop over the (sorted) keys. -/
def replayKeys : List (Int × List (Int × String)) → Int → ReminderStore →
    List FiredReminder → Int × ReminderStore × List FiredReminder
  | [], clock, store, fired => (clock, store, fired)
  | (t, rs) :: rest, clock, store, fired =>
    let step := replayKey t rs rs clock store fired
    replayKeys rest step.1 step.2.1 step.2.2

/-- `remember_reminders`, started at wall-clock `now` over the persisted
store: returns the final clock, the final durable store, and the reminders
delivered in order. -/
def remember_reminders (now : Int) (store : ReminderStore) :
    Int × ReminderStore × List FiredReminder :=
  let sortedIter := store.mergeSort (fun a b => decide (a.1 ≤ b.1))
  replayKeys sortedIter now store []

/-! ## `AdminPremierCommands.addevents` (`cogs/admin_premier_commands.py`)

Event generation works in the bot's local (US/Eastern) wall clock: the
validated Thursday is set to 22:00, Saturday is `+2 days` at 23:00, Sunday
is `+3 days` (still 22:00), and each map advances every slot by 7 days.  A
wall-clock datetime is a (day, hour, minute) record; days are counted from a
Monday epoch so that Python's `date.weekday()` is `day % 7` (Thursday = 3).

Crucially, the command manipulates `pytz`-aware datetimes:
`convert_addevents_date` localizes the parsed date once (line 237), and the
`start_times` comprehension (line 313) calls `global_utils.tz.localize` on
those datetimes *again*.  `pytz`'s `localize` raises
`ValueError("Not naive datetime (tzinfo is already set)")` on any aware
datetime, while `datetime.replace(...)` and aware-datetime `+ timedelta`
both preserve `tzinfo` — so the embedding tracks awareness explicitly. -/

structure EDT where
  day : Int
  hour : Int
  minute : Int
deriving DecidableEq, Repr

/-- Total minutes: the chronological order on wall-clock datetimes. -/
def EDT.toMinutes (t : EDT) : Int :=
  t.day * 1440 + t.hour * 60 + t.minute

/-- `datetime.weekday()` with a Monday epoch (`Monday = 0`, `Thursday = 3`). -/
def pyWeekday (day : Int) : Int := day.emod 7

/-- A generated calendar entry (name, description, start).  The end time is
always `start + 1h` in the source and no claim mentions it, so it is not
carried. -/
structure CalEntry where
  name : String
  description : String
  startTime : EDT
deriving DecidableEq, Repr

/-- The inner `for j, start_time in enumerate(start_times):` loop for one map.
`isLastMap` tells whether this is the final map of the ordered list; the
final slot (`j = len - 1`) of the final map becomes the Playoffs (finale)
entry.  Returns the created entries and whether any slot was skipped for
being in the past (`now > start_time`). -/
def addeventsSlots (now : EDT) (isLastMap : Bool) (mapName : String) :
    List EDT → Nat → Nat → List CalEntry × Bool
  | [], _, _ => ([], false)
  | t :: ts, j, len =>
    let rest := addeventsSlots now isLastMap mapName ts (j + 1) len
    if now.toMinutes > t.toMinutes then (rest.1, true)
    else
      let finale := isLastMap && (j + 1 == len)
      let e :=
        if finale then CalEntry.mk "Premier Playoffs" "Playoffs" t
        else CalEntry.mk "Premier" (pyTitle mapName) t
      (e :: rest.1, rest.2)

/-- The outer `for i, map_name in enumerate(new_maps):` loop: after each map
the three slots advance by 7 days. -/
def addeventsMaps (now : EDT) (total : Nat) :
    List String → Nat → List EDT → List CalEntry × Bool
  | [], _, _ => ([], false)
  | m :: ms, i, startTimes =>
    let here := addeventsSlots now (i + 1 == total) m startTimes 0 startTimes.length
    let rest := addeventsMaps now total ms (i + 1)
      (startTimes.map (fun t => { t with day := t.day + 7 }))
    (here.1 ++ rest.1, here.2 || rest.2)

/-- A Python `datetime` as `addevents` handles it: the wall-clock fields
plus whether `tzinfo` is set (`aware`).  `replace(...)` and adding a
`timedelta` to an aware datetime both preserve `tzinfo`. -/
structure PyDateTime where
  day : Int
  hour : Int
  minute : Int
  aware : Bool
deriving DecidableEq, Repr

/-- `pytz`'s `tzinfo.localize(dt)`: it begins with
`if dt.tzinfo is not None: raise ValueError('Not naive datetime (tzinfo is already set)')`
and otherwise attaches the timezone. -/
def tzLocalize (d : PyDateTime) : Except String PyDateTime :=
  if d.aware then Except.error "Not naive datetime (tzinfo is already set)"
  else Except.ok { d with aware := true }

/-- `convert_addevents_date` after the `mm/dd/yy` format check:
`datetime.strptime` yields a *naive* midnight datetime,
`global_utils.tz.localize` (line 237) makes it aware, and the weekday must
be Thursday (`weekday() == 3`), else the command is rejected (`none`). -/
def convert_addevents_date (startDay : Int) : Option PyDateTime :=
  match tzLocalize ⟨startDay, 0, 0, false⟩ with
  | Except.error _ => none
  | Except.ok d => if pyWeekday d.day ≠ 3 then none else some d

/-- The outcome of `addevents`: either the created entries plus the
"some maps were skipped" flag, or an uncaught `ValueError`. -/
inductive AddEventsResult where
  | created (entries : List CalEntry) (skipped : Bool)
  | valueError (msg : String)
deriving DecidableEq, Repr

/-- `addevents` after map-list validation, given the (aware) datetime
returned by `convert_addevents_date`:

```python
thur_time = thur_time.replace(hour=22, minute=0, second=0)
sat_time = (thur_time + timedelta(days=2)).replace(hour=23)
sun_time = thur_time + timedelta(days=3)
start_times = [global_utils.tz.localize(d) for d in [thur_time, sat_time, sun_time]]
```

`replace` and `+ timedelta` keep the `tzinfo` attached at parse time, so
the comprehension re-localizes aware datetimes; the first `localize` that
raises aborts the command (the `ValueError` propagates out of the handler)
before any `create_scheduled_event` call.  The slot/map loop
(`addeventsMaps` / `addeventsSlots`) runs only if every `localize`
returns. -/
def addevents (now : EDT) (newMaps : List String) (thurDate : PyDateTime) :
    AddEventsResult :=
  let thurTime : PyDateTime := { thurDate with hour := 22, minute := 0 }
  let satTime : PyDateTime := { thurTime with day := thurTime.day + 2, hour := 23 }
  let sunTime : PyDateTime := { thurTime with day := thurTime.day + 3 }
  match tzLocalize thurTime with
  | Except.error e => AddEventsResult.valueError e
  | Except.ok t1 =>
    match tzLocalize satTime with
    | Except.error e => AddEventsResult.valueError e
    | Except.ok t2 =>
      match tzLocalize sunTime with
      | Except.error e => AddEventsResult.valueError e
      | Except.ok t3 =>
        let r := addeventsMaps now newMaps.length newMaps 0
          [⟨t1.day, t1.hour, t1.minute⟩, ⟨t2.day, t2.hour, t2.minute⟩,
           ⟨t3.day, t3.hour, t3.minute⟩]
        AddEventsResult.created r.1 r.2

/-! ## `AdminPremierCommands.addpractices`

This command works in UTC: it keeps events whose US/Eastern weekday is
Thursday, then builds the Wednesday practice as
`start.replace(hour=wed_hour) - timedelta(days=1)` and the Friday practice as
`start.replace(hour=fri_hour) + timedelta(days=1)`, where
`wed_hour = est_to_utc(time(hour=22)).hour` and `fri_hour = wed_hour + 1`.

UTC datetimes reuse the (day, hour, minute) record (days from a Monday
epoch).  `est_to_utc` is modelled with the fixed daylight-saving offset
UTC−4 that `pytz` produces for the premier season; the claims under study
are offset-independent. -/

/-- Hours added to a US/Eastern wall-clock time to obtain UTC. -/
def estOffsetHours : Int := 4

/-- `wed_hour = global_utils.est_to_utc(time(hour=22)).hour`. -/
def wedHour : Int := (22 + estOffsetHours) % 24

/-- `fri_hour = wed_hour + 1`. -/
def friHour : Int := wedHour + 1

/-- `event.start_time.astimezone(global_utils.tz).weekday()`: the US/Eastern
weekday of a UTC datetime. -/
def estWeekday (t : EDT) : Int :=
  pyWeekday ((t.toMinutes - estOffsetHours * 60).fdiv 1440)

/-- The two candidate practice times derived from one event
(`wed_time` then `fri_time`). -/
def practiceTimes (start : EDT) : List EDT :=
  [{ start with hour := wedHour, day := start.day - 1 },
   { start with hour := friHour, day := start.day + 1 }]

/-- The practice entries created from one scheduled event: nothing unless the
event's US/Eastern weekday is Thursday and `"Premier"` occurs in its name;
otherwise the Wednesday/Friday practices whose time has not already passed
(`start_time < datetime.now()` is skipped). -/
def practicesFor (now : EDT) (e : CalEntry) : List CalEntry :=
  if estWeekday e.startTime ≠ 3 ∨ ¬ strContains e.name "Premier" then []
  else
    (practiceTimes e.startTime).filterMap (fun t =>
      if t.toMinutes < now.toMinutes then none
      else some (CalEntry.mk "Premier Practice" e.description t))

/-- `addpractices`: fails with the "add the premier events first" message
when no event has name exactly `"Premier"` and a description other than
`"Playoffs"`; otherwise creates the practice entries event by event. -/
def addpractices (now : EDT) (events : List CalEntry) :
    Except String (List CalEntry) :=
  if (events.filter
        (fun e => e.name == "Premier" && e.description != "Playoffs")).length = 0 then
    Except.error "Please add the premier events first (/addevents)"
  else
    Except.ok ((events.map (practicesFor now)).flatten)

/-! ## `AdminPremierCommands.remove_map` and the preference-table rebuild

The wide `preferences` table of `maps.db` has a `user_id` primary-key column
followed by one integer column per map.  `remove_map` rebuilds it without the
removed map's column:

```python
await cursor.execute("PRAGMA table_info(preferences)")
cols = await cursor.fetchall()
cols = [c[1] for c in cols if c[1] != map_name]
new_cols = ' integer default NULL, '.join(cols) + ' integer default NULL'
await cursor.execute("BEGIN TRANSACTION")
await cursor.execute(f"CREATE TEMP TABLE temp_table({new_cols})")
await cursor.execute(f"INSERT INTO temp_table SELECT {', '.join(cols)} FROM preferences")
await cursor.execute("DROP TABLE preferences")
new_cols = f"user_id integer primary key, {' integer default NULL, '.join(cols)} integer default NULL"
await cursor.execute(f"CREATE TABLE preferences({new_cols})")
await cursor.execute("INSERT INTO preferences SELECT * FROM temp_table")
await cursor.execute("DROP TABLE temp_table")
```

`cols` keeps every column other than the removed map — including `user_id`
itself — while the final `CREATE TABLE` prepends another `user_id` column.
SQLite rejects a `CREATE TABLE` whose column list repeats a name
("duplicate column name"), which the model renders as `none`; in that case
the open transaction is rolled back when the connection closes, so the
original `preferences` table survives. -/

/-- The wide preference table: column names in declaration order (first is
`user_id`), and the rows, each aligned with `cols` (NULL = `none`). -/
structure PrefTable where
  cols : List String
  rows : List (List (Option Int))
deriving DecidableEq, Repr

/-- `SELECT cols FROM preferences` row projection: each requested column's
value is read at that column's index in the source schema. -/
def projectRow (srcCols tgtCols : List String) (row : List (Option Int)) :
    List (Option Int) :=
  tgtCols.map (fun c => (row.getD (List.indexOf c srcCols) none))

/-- The table rebuild performed by `remove_map`; `none` models the SQL error
raised by the duplicate-column `CREATE TABLE`. -/
def rebuildPreferences (t : PrefTable) (mapName : String) : Option PrefTable :=
  let cols := t.cols.filter (fun c => c ≠ mapName)
  let tempRows := t.rows.map (projectRow t.cols cols)
  let newCols := "user_id" :: cols
  if newCols.Nodup then some ⟨newCols, tempRows⟩ else none

/-- The full state `remove_map` touches: the in-memory caches of the `Utils`
singleton and the three tables of `maps.db`. -/
structure MapsState where
  mapPool : List String
  mapPreferences : Prefs
  mapWeights : Weights
  mapImageUrls : List (String × String)
  dbInfo : List (String × Bool × Int × String)
  dbNotes : List (Int × String × String)
  dbPrefs : PrefTable
deriving DecidableEq, Repr

inductive RemoveOutcome where
  | notInGame
  | sqlError
  | removed
deriving DecidableEq, Repr

/-- `remove_map`: reject unknown maps untouched; otherwise drop the map from
the in-memory pool, delete its `info` and `notes` rows (these two `DELETE`s
run in `asqlite`'s autocommit mode, before the explicit transaction, so they
survive the later failure), then attempt the table rebuild.  On the rebuild's
SQL error the command aborts: the in-memory preference/weight/url caches are
never popped and the `preferences` table keeps its column. -/
def remove_map (st : MapsState) (mapName : String) : MapsState × RemoveOutcome :=
  if ¬ (st.mapPreferences.map Prod.fst).contains mapName then
    (st, RemoveOutcome.notInGame)
  else
    let pool := st.mapPool.erase mapName
    let info := st.dbInfo.filter (fun r => r.1 ≠ mapName)
    let notes := st.dbNotes.filter (fun r => r.2.1 ≠ mapName)
    match rebuildPreferences st.dbPrefs mapName with
    | none =>
      ({ st with mapPool := pool, dbInfo := info, dbNotes := notes },
       RemoveOutcome.sqlError)
    | some t =>
      ({ mapPool := pool,
         mapPreferences := st.mapPreferences.filter (fun p => p.1 ≠ mapName),
         mapWeights := st.mapWeights.filter (fun p => p.1 ≠ mapName),
         mapImageUrls := st.mapImageUrls.filter (fun p => p.1 ≠ mapName),
         dbInfo := info, dbNotes := notes, dbPrefs := t },
       RemoveOutcome.removed)

/-! ## Theorems -/

/-- **C1** (code bug).  The vote-saving operation does *not* preserve
`weight(item) = Σ preference(item, user)`: it adds the new value to the
weight instead of `newValue - oldValue`.  Concretely, starting from a state
satisfying the invariant (user 7 voted `1` on `"ascent"`, weight `1`),
re-voting `-1` leaves the stored weight at `1 + (-1) = 0` while the stored
preferences sum to `-1`. -/
theorem save_preference_breaks_weight_invariant :
    alGet (save_preference [("ascent", [(7, 1)])] [("ascent", 1)] "ascent" 7 (-1)).2 "ascent"
      = some 0
    ∧ (alGet (save_preference [("ascent", [(7, 1)])] [("ascent", 1)] "ascent" 7 (-1)).1
        "ascent").map sumVotes = some (-1)
    ∧ some (0 : Int) ≠ some (-1) := by decide

/-- **C5** (confirmed).  Setting a preference to the value already stored for
that (item, user) is a complete no-op: the guard
`map_preferences[map_name].get(user_id, -2) == preference` returns before any
in-memory or database mutation. -/
theorem save_preference_noop (prefs : Prefs) (weights : Weights)
    (mapName : String) (userId : Int) (v : Int)
    (_hv : v = -1 ∨ v = 0 ∨ v = 1)
    (hstored : storedVote prefs mapName userId = some v) :
    save_preference prefs weights mapName userId v = (prefs, weights) := by
  unfold storedVote at hstored
  unfold save_preference
  cases h : alGet prefs mapName with
  | none => rw [h] at hstored; exact absurd hstored (by simp [Option.bind])
  | some votes =>
    rw [h] at hstored
    simp only [Option.some_bind] at hstored
    simp [h, hstored]

theorem save_preference_noop_witness :
    save_preference [("ascent", [(7, 1)])] [("ascent", 1)] "ascent" 7 1
      = ([("ascent", [(7, 1)])], [("ascent", 1)]) :=
  save_preference_noop [("ascent", [(7, 1)])] [("ascent", 1)] "ascent" 7 1
    (by decide) (by decide)

/-- **C3** (confirmed).  The sweep's time-bucket classification at the
boundaries: `Δ = +1h` is a Prestart reminder with no status change; `Δ = 0`
is a Start reminder and starts a Scheduled event; `Δ = -1h` produces no
reminder and ends an Active event / cancels a Scheduled one; every `Δ`
strictly between `-1h` and `-10min` produces neither a reminder nor a
transition. -/
theorem get_reminder_type_buckets (now : Int) (name desc : String) (st : EventStatus) :
    get_reminder_type now ⟨name, desc, now + 3600, st⟩ = ("prestart", st)
    ∧ get_reminder_type now ⟨name, desc, now, st⟩ =
        ("start", if st = EventStatus.scheduled then EventStatus.active else st)
    ∧ get_reminder_type now ⟨name, desc, now - 3600, EventStatus.active⟩ =
        ("", EventStatus.completed)
    ∧ get_reminder_type now ⟨name, desc, now - 3600, EventStatus.scheduled⟩ =
        ("", EventStatus.canceled)
    ∧ (∀ d : Int, -3600 < d → d < -600 →
        get_reminder_type now ⟨name, desc, now + d, st⟩ = ("", st)) := by
  refine ⟨?_, ?_, ?_, ?_, ?_⟩
  · unfold get_reminder_type
    rw [show now + 3600 - now = 3600 by ring]
    norm_num [premierReminderTypes]
  · unfold get_reminder_type
    rw [show now - now = 0 by ring]
    norm_num [premierReminderTypes]
  · unfold get_reminder_type
    rw [show now - 3600 - now = -3600 by ring]
    norm_num
  · unfold get_reminder_type
    rw [show now - 3600 - now = -3600 by ring]
    norm_num
    intro h
    exact absurd h (by decide)
  · intro d h1 h2
    unfold get_reminder_type
    rw [show now + d - now = d by ring]
    rw [if_pos (by omega), if_neg (by omega), if_neg (by omega)]

theorem get_reminder_type_buckets_witness :
    get_reminder_type 0 ⟨"a", "b", 0 + (-1000), EventStatus.scheduled⟩
      = ("", EventStatus.scheduled) :=
  (get_reminder_type_buckets 0 "a" "b" EventStatus.scheduled).2.2.2.2
    (-1000) (by norm_num) (by norm_num)

/-- The concrete pre-state used to exhibit the `remove_map` migration bug:
two maps, user 7's votes, one practice note for `"ascent"`, and the standard
wide `preferences` table (`user_id` primary key plus one column per map). -/
def removeMapState : MapsState where
  mapPool := ["ascent", "bind"]
  mapPreferences := [("ascent", [(7, 1)]), ("bind", [(7, -1)])]
  mapWeights := [("ascent", 1), ("bind", -1)]
  mapImageUrls := [("ascent", "u1"), ("bind", "u2")]
  dbInfo := [("ascent", true, 1, "u1"), ("bind", true, -1, "u2")]
  dbNotes := [(100, "ascent", "setup")]
  dbPrefs := ⟨["user_id", "ascent", "bind"], [[some 7, some 1, some (-1)]]⟩

/-- **C6** (code bug).  Removing a known map does *not* cascade: the rebuild
keeps `user_id` in the retained column list and then prepends another
`user_id integer primary key`, so the final `CREATE TABLE preferences(...)`
repeats the column name and SQLite raises "duplicate column name".  The
command aborts mid-way: the map's schema column and its in-memory
preferences, weight and image URL all survive (only the pool entry and the
`info`/`notes` rows, deleted before the transaction, are gone). -/
theorem remove_map_duplicate_column_aborts :
    (remove_map removeMapState "ascent").2 = RemoveOutcome.sqlError
    ∧ (remove_map removeMapState "ascent").1.dbPrefs = removeMapState.dbPrefs
    ∧ "ascent" ∈ (remove_map removeMapState "ascent").1.dbPrefs.cols
    ∧ alGet (remove_map removeMapState "ascent").1.mapPreferences "ascent"
        = some [(7, 1)]
    ∧ alGet (remove_map removeMapState "ascent").1.mapWeights "ascent" = some 1
    ∧ (remove_map removeMapState "ascent").1.mapPool = ["bind"]
    ∧ (remove_map removeMapState "unknown").1 = removeMapState
    ∧ (remove_map removeMapState "unknown").2 = RemoveOutcome.notInGame := by
  decide

/-- **C8** (code bug).  `remember_reminders` replays both past-due reminders
stored under one key with the "missed" annotation appended, but the
per-fire store update filters the *deep-copied snapshot* list, so firing the
second reminder writes `[A]` back: the already-fired first reminder is
resurrected in the durable set instead of both being removed. -/
theorem remember_reminders_resurrects_fired :
    ((remember_reminders 100 [(10, [(1, "A"), (1, "B")])]).2.2.map
        (fun f => f.message))
      = ["A\n(this reminder was supposed to go off at <t:10:R>.",
         "B\n(this reminder was supposed to go off at <t:10:R>."]
    ∧ ((remember_reminders 100 [(10, [(1, "A"), (1, "B")])]).2.2.map
        (fun f => f.missed)) = [true, true]
    ∧ (remember_reminders 100 [(10, [(1, "A"), (1, "B")])]).2.1
        = [(10, [(1, "A")])] := by
  unfold remember_reminders
  rw [List.mergeSort_singleton]
  decide

/-- **C9** (confirmed).  When the store is persisted with a non-empty active
roster, every surviving preference entry belongs to a roster member and every
roster member's entry survives; with an empty roster the purge is skipped
entirely and the preference table is only re-ordered (a permutation — no
entry is removed). -/
theorem save_preferences_purge (teammateIds : List Int) (prefs : Prefs) :
    (teammateIds ≠ [] →
      (∀ p ∈ save_preferences teammateIds prefs, ∀ q ∈ p.2, q.1 ∈ teammateIds)
      ∧ (∀ p ∈ prefs, ∀ q ∈ p.2, q.1 ∈ teammateIds →
          ∃ p' ∈ save_preferences teammateIds prefs, p'.1 = p.1 ∧ q ∈ p'.2))
    ∧ (teammateIds = [] → (save_preferences teammateIds prefs).Perm prefs) := by
  constructor
  · intro hne
    have hne' : teammateIds.isEmpty = false := by
      cases teammateIds with
      | nil => exact absurd rfl hne
      | cons a l => rfl
    constructor
    · intro p hp q hq
      unfold save_preferences at hp
      rw [hne'] at hp
      simp only [Bool.false_eq_true, if_false] at hp
      obtain ⟨r, _hr, rfl⟩ := List.mem_map.mp hp
      have := (List.mem_filter.mp hq).2
      simpa using this
    · intro p hp q hq hmem
      refine ⟨(p.1, p.2.filter (fun q => teammateIds.contains q.1)), ?_, rfl, ?_⟩
      · unfold save_preferences
        rw [hne']
        simp only [Bool.false_eq_true, if_false]
        exact List.mem_map.mpr ⟨p, List.mem_mergeSort.mpr hp, rfl⟩
      · exact List.mem_filter.mpr ⟨hq, by simpa using hmem⟩
  · intro he
    subst he
    unfold save_preferences
    simp only [List.isEmpty_nil, if_true]
    exact List.mergeSort_perm prefs _

theorem save_preferences_purge_witness :
    (save_preferences [] [("b", [(7, 1)]), ("a", [(8, -1)])]).Perm
      [("b", [(7, 1)]), ("a", [(8, -1)])] :=
  (save_preferences_purge [] [("b", [(7, 1)]), ("a", [(8, -1)])]).2 rfl

/-- **C10** (confirmed).  The dedup-ledger membership check returns `false`
for the empty message and for an empty ledger file; otherwise it is exactly
substring membership in the current calendar day's file, and only that file:
two states agreeing on the current date and that date's file agree on every
check, the midnight rotation leaves the new day's file untouched (the
"Starting new log file" line goes to the old file), and after rotating onto a
fresh day every message — including any logged the previous day — reports
unlogged. -/
theorem already_logged_current_day_only (s : LogFiles) (msg : String)
    (now : Int) (newDate : Nat) :
    alreadyLoggedState s "" = false
    ∧ (s.files s.logDate = "" → alreadyLoggedState s msg = false)
    ∧ (∀ s' : LogFiles, s'.logDate = s.logDate →
        s'.files s'.logDate = s.files s.logDate →
        alreadyLoggedState s' msg = alreadyLoggedState s msg)
    ∧ (msg ≠ "" → s.files s.logDate ≠ "" →
        alreadyLoggedState s msg = strContains (s.files s.logDate) msg)
    ∧ (newDate ≠ s.logDate →
        (latest_logs s now newDate).files newDate = s.files newDate)
    ∧ (newDate ≠ s.logDate → s.files newDate = "" →
        alreadyLoggedState (latest_logs s now newDate) msg = false) := by
  refine ⟨?_, ?_, ?_, ?_, ?_, ?_⟩
  · simp [alreadyLoggedState, already_logged]
  · intro h
    simp [alreadyLoggedState, already_logged, h]
  · intro s' hdate hfile
    unfold alreadyLoggedState
    rw [hdate] at hfile
    rw [hdate, hfile]
  · intro h1 h2
    simp [alreadyLoggedState, already_logged, h1, h2]
  · intro h
    simp only [latest_logs, if_pos h]
    exact if_neg h
  · intro h hempty
    simp only [latest_logs, if_pos h]
    unfold alreadyLoggedState already_logged
    simp [if_neg h, hempty]

theorem already_logged_current_day_only_witness :
    alreadyLoggedState
      (latest_logs ⟨0, fun d => if d = 0 then "old entries" else ""⟩ 0 1) "old"
      = false :=
  (already_logged_current_day_only ⟨0, fun d => if d = 0 then "old entries" else ""⟩
    "old" 0 1).2.2.2.2.2 (by decide) rfl

/-- **C4** (code bug).  Event generation never creates a single entry: for
every map list and every start date that `convert_addevents_date` accepts
(so in particular for every 2-item list and valid Thursday), the
`start_times` list comprehension calls `global_utils.tz.localize` on
datetimes that were already localized at parse time, and `pytz` raises
`ValueError("Not naive datetime (tzinfo is already set)")` — the command
aborts before the first `create_scheduled_event`, so the claimed 6-entry
schedule with its Finale entry is never produced. -/
theorem addevents_always_value_error (now : EDT) (newMaps : List String)
    (startDay : Int) (d : PyDateTime)
    (hconv : convert_addevents_date startDay = some d) :
    addevents now newMaps d
      = AddEventsResult.valueError "Not naive datetime (tzinfo is already set)"
    ∧ ∀ entries skipped,
        addevents now newMaps d ≠ AddEventsResult.created entries skipped := by
  have hd : d = ⟨startDay, 0, 0, true⟩ := by
    unfold convert_addevents_date tzLocalize at hconv
    simp only [Bool.false_eq_true, if_false] at hconv
    split_ifs at hconv
    exact (Option.some.inj hconv).symm
  subst hd
  refine ⟨rfl, ?_⟩
  intro entries skipped h
  exact AddEventsResult.noConfusion (rfl.trans h.symm :
    AddEventsResult.created entries skipped
      = AddEventsResult.valueError "Not naive datetime (tzinfo is already set)")

theorem addevents_always_value_error_witness :
    addevents ⟨0, 0, 0⟩ ["ascent", "bind"] ⟨3, 0, 0, true⟩
      = AddEventsResult.valueError "Not naive datetime (tzinfo is already set)" :=
  (addevents_always_value_error ⟨0, 0, 0⟩ ["ascent", "bind"] 3 ⟨3, 0, 0, true⟩
    (by decide)).1

/-- **C7** counterexample.  A Primary entry on a Thursday (UTC day 4 at
02:00 = Thursday 22:00 US/Eastern) derives its two practice entries on UTC
days 3 and 5 — `start ± 1 day` (Wednesday and Friday around the Thursday
event) — not at the claimed two days before and two days after (days 2 and
6). -/
theorem addpractices_not_two_days :
    estWeekday ⟨4, 2, 0⟩ = 3
    ∧ (addpractices ⟨0, 0, 0⟩ [⟨"Premier", "Ascent", ⟨4, 2, 0⟩⟩]).map
        (fun l => l.map (fun p => p.startTime.day)) = Except.ok [3, 5]
    ∧ ([3, 5] : List Int) ≠ [4 - 2, 4 + 2] :=
  ⟨by decide, rfl, by decide⟩

/-- **C7** amended.  Secondary ("practice") generation requires at least one
non-Finale Primary entry (name `"Premier"`, description not `"Playoffs"`),
failing with the "add the premier events first" condition otherwise; for
every entry containing `"Premier"` in its name and anchored on the reference
weekday (US/Eastern Thursday) it derives exactly the two Secondary entries at
the fixed hours `wed_hour`/`fri_hour`, *one day before and one day after* the
Primary, skipping any derived entry whose computed time has already passed. -/
theorem addpractices_one_day_offsets (now : EDT) (events : List CalEntry) :
    (∀ start : EDT,
      (practiceTimes start).map (fun t => t.day) = [start.day - 1, start.day + 1]
      ∧ (practiceTimes start).map (fun t => t.hour) = [wedHour, friHour])
    ∧ ((∃ e ∈ events, e.name = "Premier" ∧ e.description ≠ "Playoffs") ↔
        ∃ l, addpractices now events = Except.ok l)
    ∧ (∀ l, addpractices now events = Except.ok l →
        (∀ p ∈ l, p.name = "Premier Practice"
          ∧ ∃ e ∈ events, strContains e.name "Premier" = true
              ∧ estWeekday e.startTime = 3
              ∧ p.description = e.description
              ∧ ¬ p.startTime.toMinutes < now.toMinutes
              ∧ p.startTime ∈ practiceTimes e.startTime)
        ∧ (∀ e ∈ events, strContains e.name "Premier" = true →
            estWeekday e.startTime = 3 →
            ∀ t ∈ practiceTimes e.startTime, ¬ t.toMinutes < now.toMinutes →
              CalEntry.mk "Premier Practice" e.description t ∈ l)) := by
  have hfilter : ∀ e : CalEntry,
      (e.name == "Premier" && e.description != "Playoffs") = true ↔
      (e.name = "Premier" ∧ e.description ≠ "Playoffs") := by
    intro e
    rw [Bool.and_eq_true, beq_iff_eq, bne_iff_ne]
  refine ⟨?_, ?_, ?_⟩
  · intro start
    simp [practiceTimes]
  · constructor
    · rintro ⟨e, he, hname, hdesc⟩
      have hmem : e ∈ events.filter
          (fun e => e.name == "Premier" && e.description != "Playoffs") :=
        List.mem_filter.mpr ⟨he, (hfilter e).mpr ⟨hname, hdesc⟩⟩
      have hne : (events.filter
          (fun e => e.name == "Premier" && e.description != "Playoffs")).length ≠ 0 := by
        intro h0
        rw [List.length_eq_zero] at h0
        rw [h0] at hmem
        exact absurd hmem (List.not_mem_nil e)
      exact ⟨_, by rw [addpractices, if_neg hne]⟩
    · rintro ⟨l, hl⟩
      unfold addpractices at hl
      by_cases hz : (events.filter
          (fun e => e.name == "Premier" && e.description != "Playoffs")).length = 0
      · rw [if_pos hz] at hl
        exact absurd hl (by simp)
      · have hne : events.filter
            (fun e => e.name == "Premier" && e.description != "Playoffs") ≠ [] := by
          intro h0
          exact hz (by rw [h0]; rfl)
        obtain ⟨e, he⟩ := List.exists_mem_of_ne_nil _ hne
        have := List.mem_filter.mp he
        exact ⟨e, this.1, (hfilter e).mp this.2⟩
  · intro l hl
    unfold addpractices at hl
    by_cases hz : (events.filter
        (fun e => e.name == "Premier" && e.description != "Playoffs")).length = 0
    · rw [if_pos hz] at hl
      exact absurd hl (by simp)
    · rw [if_neg hz] at hl
      have hl' : l = (events.map (practicesFor now)).flatten := by
        injection hl with h
        exact h.symm
      subst hl'
      constructor
      · intro p hp
        obtain ⟨s, hs, hps⟩ := List.mem_flatten.mp hp
        obtain ⟨e, he, rfl⟩ := List.mem_map.mp hs
        unfold practicesFor at hps
        by_cases hc : estWeekday e.startTime ≠ 3 ∨ ¬ strContains e.name "Premier" = true
        · rw [if_pos hc] at hps
          exact absurd hps (List.not_mem_nil p)
        · rw [if_neg hc] at hps
          push_neg at hc
          obtain ⟨t, ht, hft⟩ := List.mem_filterMap.mp hps
          by_cases hpast : t.toMinutes < now.toMinutes
          · rw [if_pos hpast] at hft
            exact absurd hft (by simp)
          · rw [if_neg hpast] at hft
            have hp' : CalEntry.mk "Premier Practice" e.description t = p :=
              Option.some.inj hft
            refine ⟨by rw [← hp'], e, he, hc.2, hc.1, by rw [← hp'], ?_, ?_⟩
            · rw [← hp']
              exact hpast
            · rw [← hp']
              exact ht
      · intro e he hcont hweek t ht hpast
        refine List.mem_flatten.mpr ⟨practicesFor now e, List.mem_map.mpr ⟨e, he, rfl⟩, ?_⟩
        unfold practicesFor
        rw [if_neg (by push_neg; exact ⟨hweek, hcont⟩)]
        exact List.mem_filterMap.mpr ⟨t, ht, by rw [if_neg hpast]⟩

theorem addpractices_one_day_offsets_witness :
    CalEntry.mk "Premier Practice" "Ascent" ⟨3, 2, 0⟩ ∈
      ((([⟨"Premier", "Ascent", ⟨4, 2, 0⟩⟩] : List CalEntry).map
        (practicesFor ⟨0, 0, 0⟩)).flatten) :=
  ((addpractices_one_day_offsets ⟨0, 0, 0⟩
      [⟨"Premier", "Ascent", ⟨4, 2, 0⟩⟩]).2.2 _ rfl).2
    ⟨"Premier", "Ascent", ⟨4, 2, 0⟩⟩ (by decide) (by decide) (by decide)
    ⟨3, 2, 0⟩ (by decide) (by decide)

/-! ## Infix lemmas for the dedup-ledger argument

The ledger check is a substring test over the whole file, while `Utils.log`
appends newline-terminated lines.  The lemmas below let the sweep proofs
track which messages occur in the file across appends: an infix of `a ++ b`
is an infix of `a`, an infix of `b`, or straddles the boundary; a straddling
occurrence of a newline-free message is impossible when `a` is
newline-terminated. -/

theorem infix_append_left {α : Type} {m a : List α} (b : List α)
    (h : m <:+: a) : m <:+: a ++ b := by
  obtain ⟨s, t, rfl⟩ := h
  exact ⟨s, t ++ b, by simp⟩

theorem infix_append_split {α : Type} {m a b : List α} (h : m <:+: a ++ b) :
    m <:+: a ∨ m <:+: b
    ∨ ∃ s t, m = s ++ t ∧ s ≠ [] ∧ t ≠ [] ∧ s <:+ a ∧ t <+: b := by
  obtain ⟨u, v, huv⟩ := h
  by_cases hc1 : u.length + m.length ≤ a.length
  · left
    have ha : a = List.take a.length (u ++ (m ++ v)) := by
      rw [show u ++ (m ++ v) = (u ++ m ++ v) by simp, huv, List.take_left]
    rw [List.take_append_eq_append_take, List.take_of_length_le (by omega),
      List.take_append_eq_append_take, List.take_of_length_le (by omega)] at ha
    exact ⟨u, List.take (a.length - u.length - m.length) v, by rw [ha]; simp⟩
  · by_cases hc2 : a.length ≤ u.length
    · right; left
      have hb : b = List.drop a.length (u ++ (m ++ v)) := by
        rw [show u ++ (m ++ v) = (u ++ m ++ v) by simp, huv,
          List.drop_left' rfl]
      rw [List.drop_append_eq_append_drop,
        show a.length - u.length = 0 by omega, List.drop_zero] at hb
      exact ⟨List.drop a.length u, v, by rw [hb]; simp⟩
    · right; right
      refine ⟨List.take (a.length - u.length) m, List.drop (a.length - u.length) m,
        (List.take_append_drop _ m).symm, ?_, ?_, ?_, ?_⟩
      · have : (List.take (a.length - u.length) m).length = a.length - u.length := by
          rw [List.length_take]
          omega
        intro hnil
        rw [hnil] at this
        simp at this
        omega
      · have : (List.drop (a.length - u.length) m).length
            = m.length - (a.length - u.length) := List.length_drop _ m
        intro hnil
        rw [hnil] at this
        simp at this
        omega
      · have ha : a = List.take a.length (u ++ (m ++ v)) := by
          rw [show u ++ (m ++ v) = (u ++ m ++ v) by simp, huv, List.take_left]
        rw [List.take_append_eq_append_take, List.take_of_length_le (by omega),
          List.take_append_eq_append_take,
          show a.length - u.length - m.length = 0 by omega,
          List.take_zero, List.append_nil] at ha
        exact ⟨u, ha.symm⟩
      · have hb : b = List.drop a.length ((u ++ m) ++ v) := by
          rw [show (u ++ m) ++ v = u ++ m ++ v by simp, huv, List.drop_left' rfl]
        rw [List.drop_append_eq_append_drop, List.drop_append_eq_append_drop,
          List.drop_of_length_le (by omega)] at hb
        exact ⟨List.drop (a.length - (u ++ m).length) v, by rw [hb]; simp⟩

theorem mem_of_suffix_concat {α : Type} {s B : List α} {c : α}
    (h : s <:+ B ++ [c]) (hs : s ≠ []) : c ∈ s := by
  obtain ⟨u, hu⟩ := h
  rcases List.eq_nil_or_concat s with rfl | ⟨ys, d, rfl⟩
  · exact absurd rfl hs
  · rw [List.concat_eq_append, show u ++ (ys ++ [d]) = (u ++ ys) ++ [d] by simp] at hu
    have := congrArg List.getLast? hu
    rw [List.getLast?_concat, List.getLast?_concat] at this
    obtain rfl : d = c := by injection this
    simp

theorem not_infix_append_line {m A body : List Char}
    (hA : A = [] ∨ ∃ B, A = B ++ [Char.ofNat 10])
    (hm : m ≠ []) (hnl : Char.ofNat 10 ∉ m)
    (h1 : ¬ m <:+: A) (h2 : ¬ m <:+: body) :
    ¬ m <:+: A ++ (body ++ [Char.ofNat 10]) := by
  intro h
  rcases infix_append_split h with hcase | hcase | ⟨s, t, rfl, hs, ht, hsa, htb⟩
  · exact h1 hcase
  · rcases infix_append_split hcase with hc | hc | ⟨s, t, rfl, hs, ht, hsa, htb⟩
    · exact h2 hc
    · rcases List.sublist_singleton.mp hc.sublist with rfl | rfl
      · exact hm rfl
      · exact hnl (by simp)
    · have : Char.ofNat 10 ∈ t := by
        rcases htb with ⟨w, hw⟩
        have ht1 : t.length ≤ 1 := by
          have := congrArg List.length hw
          simp at this
          omega
        rcases t with _ | ⟨x, _ | ⟨y, t⟩⟩
        · exact absurd rfl ht
        · have : x = Char.ofNat 10 := by
            cases hw
            rfl
          simp [this]
        · exfalso
          simp at ht1
      exact hnl (List.mem_append.mpr (Or.inr this))
  · rcases hA with rfl | ⟨B, rfl⟩
    · obtain ⟨u, hu⟩ := hsa
      exact hs (List.append_eq_nil.mp hu).2
    · exact hnl (List.mem_append.mpr (Or.inl (mem_of_suffix_concat hsa hs)))

/-! ## Ledger-file lemmas -/

/-- A well-formed log file: empty, or ending in a newline (every write of
`Utils.log` appends newline-terminated text). -/
def logOk (s : String) : Prop :=
  s.data = [] ∨ ∃ B, s.data = B ++ [Char.ofNat 10]

/-- The body of the ledger line for `message` (the line minus its trailing
newline): `f"[{now}] {message}"`. -/
def logLineBody (now : Int) (message : String) : String :=
  "[" ++ fmtStamp now ++ "] " ++ message

theorem str_ne_empty_iff {s : String} : s ≠ "" ↔ s.data ≠ [] := by
  constructor
  · intro h hd
    exact h (String.ext hd)
  · intro h hs
    subst hs
    exact h rfl

theorem utilsLog_data (log : String) (now : Int) (message : String) :
    (utilsLog log now message).data
      = (log.data
          ++ (if strContains message "connected to Discord" then
                sepLine.data ++ [Char.ofNat 10] else []))
        ++ ((logLineBody now message).data ++ [Char.ofNat 10]) := by
  unfold utilsLog logLineBody
  by_cases h : strContains message "connected to Discord"
  · rw [if_pos h, if_pos h]
    simp [String.data_append]
  · rw [if_neg h, if_neg h]
    simp [String.data_append]

theorem already_logged_false_of_not_contains {A m : String}
    (h : ¬ m.data <:+: A.data) : already_logged A m = false := by
  unfold already_logged strContains
  split_ifs with h1 h2
  · rfl
  · simpa using h
  · rfl

theorem already_logged_true_of_contains {A m : String} (hm : m ≠ "")
    (h : m.data <:+: A.data) : already_logged A m = true := by
  have hA : A ≠ "" := by
    rw [str_ne_empty_iff]
    intro hd
    rw [hd] at h
    exact (str_ne_empty_iff.mp hm) (List.eq_nil_of_infix_nil h)
  unfold already_logged strContains
  rw [if_neg hm, if_pos hA]
  simpa using h

theorem not_infix_of_already_logged_false {A m : String} (hm : m ≠ "")
    (h : already_logged A m = false) : ¬ m.data <:+: A.data := by
  intro hinf
  rw [already_logged_true_of_contains hm hinf] at h
  exact Bool.noConfusion h

/-- Appending any text to the ledger preserves positive membership. -/
theorem already_logged_mono {A m : String} (x : String)
    (h : already_logged A m = true) : already_logged (A ++ x) m = true := by
  have hm : m ≠ "" := by
    intro hm
    rw [hm] at h
    simp [already_logged] at h
  have hinf : m.data <:+: A.data := by
    by_contra hn
    rw [already_logged_false_of_not_contains hn] at h
    exact Bool.noConfusion h
  exact already_logged_true_of_contains hm (by
    rw [String.data_append]
    exact infix_append_left _ hinf)

/-- A message is in the ledger right after `Utils.log` wrote it. -/
theorem already_logged_utilsLog_self {log : String} {now : Int} {m : String}
    (hm : m ≠ "") : already_logged (utilsLog log now m) m = true := by
  apply already_logged_true_of_contains hm
  rw [utilsLog_data]
  have hb : (logLineBody now m).data = ("[" ++ fmtStamp now ++ "] ").data ++ m.data := by
    unfold logLineBody
    simp [String.data_append]
  rw [hb]
  exact ⟨(log.data ++ (if strContains m "connected to Discord" then
      sepLine.data ++ [Char.ofNat 10] else [])) ++ ("[" ++ fmtStamp now ++ "] ").data,
    [Char.ofNat 10], by simp⟩

theorem logOk_utilsLog (log : String) (now : Int) (message : String) :
    logOk (utilsLog log now message) := by
  right
  rw [utilsLog_data]
  refine ⟨(log.data
      ++ (if strContains message "connected to Discord" then
            sepLine.data ++ [Char.ofNat 10] else []))
      ++ (logLineBody now message).data, ?_⟩
  simp [List.append_assoc]

/-- Appending one `Utils.log` line cannot make a newline-free message `m`
appear in the file unless `m` occurs in the written line's body (or was
already present). -/
theorem already_logged_utilsLog_false {log : String} {now : Int}
    {written m : String}
    (hOk : logOk log) (hm : m ≠ "") (hnl : Char.ofNat 10 ∉ m.data)
    (h1 : already_logged log m = false)
    (hsep : ¬ m.data <:+: sepLine.data)
    (hbody : ¬ m.data <:+: (logLineBody now written).data) :
    already_logged (utilsLog log now written) m = false := by
  apply already_logged_false_of_not_contains
  rw [utilsLog_data]
  have hmne : m.data ≠ [] := str_ne_empty_iff.mp hm
  have h1' : ¬ m.data <:+: log.data := not_infix_of_already_logged_false hm h1
  by_cases hc : strContains written "connected to Discord"
  · rw [if_pos hc]
    have hA2 : ¬ m.data <:+: log.data ++ (sepLine.data ++ [Char.ofNat 10]) :=
      not_infix_append_line hOk hmne hnl h1' hsep
    exact not_infix_append_line
      (Or.inr ⟨log.data ++ sepLine.data, by rw [List.append_assoc]⟩)
      hmne hnl hA2 hbody
  · rw [if_neg hc, List.append_nil]
    exact not_infix_append_line hOk hmne hnl h1' hbody

/-! ## Sweep bookkeeping: which events are due, and their ledger lines -/

/-- Whether the sweep classifies the event into a reminder bucket at all. -/
def reminderDue (now : Int) (e : SEvent) : Bool :=
  (get_reminder_type now e).1 != ""

/-- The events of the sweep that produce a reminder at `now`. -/
def dueEvents (now : Int) (evs : List SEvent) : List SEvent :=
  evs.filter (reminderDue now)

/-- The dedup-ledger line body an event's reminder produces at `now`. -/
def dueMessage (now : Int) (e : SEvent) : String :=
  reminderLogMessage (get_reminder_type now e).1 e

/-- The ledger lines of all due events, in sweep order. -/
def dueMessages (now : Int) (evs : List SEvent) : List String :=
  (dueEvents now evs).map (dueMessage now)

theorem get_reminder_type_fst_eq (now : Int) (e e' : SEvent)
    (h : e'.startTime = e.startTime) :
    (get_reminder_type now e').1 = (get_reminder_type now e).1 := by
  simp only [get_reminder_type]
  rw [h]
  split_ifs <;> rfl

theorem get_reminder_type_fst_applyReminder (now : Int) (e : SEvent) :
    (get_reminder_type now (applyReminder now e)).1 = (get_reminder_type now e).1 :=
  get_reminder_type_fst_eq now e (applyReminder now e) rfl

theorem reminderDue_applyReminder (now : Int) (e : SEvent) :
    reminderDue now (applyReminder now e) = reminderDue now e := by
  unfold reminderDue
  rw [get_reminder_type_fst_applyReminder]

theorem dueMessage_applyReminder (now : Int) (e : SEvent) :
    dueMessage now (applyReminder now e) = dueMessage now e := by
  unfold dueMessage reminderLogMessage
  rw [get_reminder_type_fst_applyReminder]
  rfl

theorem str_append_ne_empty (s t : String) (h : s ≠ "") : s ++ t ≠ "" := by
  rw [str_ne_empty_iff] at h ⊢
  rw [String.data_append]
  intro hh
  exact h (List.append_eq_nil.mp hh).1

theorem reminderLogMessage_ne_empty (rt : String) (e : SEvent) :
    reminderLogMessage rt e ≠ "" := by
  unfold reminderLogMessage
  repeat apply str_append_ne_empty
  decide

theorem dueMessage_ne_empty (now : Int) (e : SEvent) : dueMessage now e ≠ "" :=
  reminderLogMessage_ne_empty _ e

/-- A message always occurs in its own ledger line's body. -/
theorem infix_logLineBody_self (now : Int) (m : String) :
    m.data <:+: (logLineBody now m).data := by
  have hb : (logLineBody now m).data
      = ("[" ++ fmtStamp now ++ "] ").data ++ m.data := by
    unfold logLineBody
    simp [String.data_append]
  rw [hb]
  exact ⟨("[" ++ fmtStamp now ++ "] ").data, [], by simp⟩

theorem sweepStep_skip {now : Int} {log : String} {e : SEvent}
    (h : (get_reminder_type now e).1 = ""
      ∨ already_logged log (reminderLogMessage (get_reminder_type now e).1 e) = true) :
    sweepStep now log e = (applyReminder now e, log, none) := by
  unfold sweepStep
  rcases h with h | h
  · rw [if_pos h]
  · by_cases h0 : (get_reminder_type now e).1 = ""
    · rw [if_pos h0]
    · rw [if_neg h0, if_pos h]

theorem sweepStep_send {now : Int} {log : String} {e : SEvent}
    (h1 : (get_reminder_type now e).1 ≠ "")
    (h2 : already_logged log (reminderLogMessage (get_reminder_type now e).1 e) = false) :
    sweepStep now log e
      = (applyReminder now e,
         utilsLog log now (reminderLogMessage (get_reminder_type now e).1 e),
         some (reminderLogMessage (get_reminder_type now e).1 e)) := by
  unfold sweepStep
  rw [if_neg h1, if_neg (by rw [h2]; exact Bool.noConfusion)]

theorem sweepStep_fst (now : Int) (log : String) (e : SEvent) :
    (sweepStep now log e).1 = applyReminder now e := by
  simp only [sweepStep]
  split_ifs <;> rfl

theorem sweepEvents_cons (now : Int) (e : SEvent) (es : List SEvent) (log : String) :
    sweepEvents now (e :: es) log
      = ((sweepStep now log e).1 :: (sweepEvents now es (sweepStep now log e).2.1).1,
         (sweepEvents now es (sweepStep now log e).2.1).2.1,
         match (sweepStep now log e).2.2 with
         | some msg => msg :: (sweepEvents now es (sweepStep now log e).2.1).2.2
         | none => (sweepEvents now es (sweepStep now log e).2.1).2.2) := rfl

theorem sweepEvents_fst (now : Int) (evs : List SEvent) : ∀ log : String,
    (sweepEvents now evs log).1 = evs.map (applyReminder now) := by
  induction evs with
  | nil => intro log; rfl
  | cons e es ih =>
    intro log
    rw [sweepEvents_cons, List.map_cons, sweepStep_fst, ih]

/-- After a sweep, the ledger file has only grown, and the ledger line of
every due event is in it. -/
theorem sweepEvents_logs_due (now : Int) (evs : List SEvent) : ∀ log : String,
    (∃ x, (sweepEvents now evs log).2.1.data = log.data ++ x)
    ∧ (∀ e ∈ dueEvents now evs,
        already_logged (sweepEvents now evs log).2.1 (dueMessage now e) = true) := by
  induction evs with
  | nil =>
    intro log
    exact ⟨⟨[], by simp [sweepEvents]⟩, by intro e he; exact absurd he (List.not_mem_nil e)⟩
  | cons e es ih =>
    intro log
    rw [sweepEvents_cons]
    by_cases hrt : (get_reminder_type now e).1 = ""
    · rw [sweepStep_skip (Or.inl hrt)]
      refine ⟨(ih log).1, ?_⟩
      intro e0 he0
      unfold dueEvents at he0
      rw [List.filter_cons, if_neg (by simp [reminderDue, hrt])] at he0
      exact (ih log).2 e0 he0
    · by_cases hal : already_logged log (reminderLogMessage (get_reminder_type now e).1 e) = true
      · rw [sweepStep_skip (Or.inr hal)]
        refine ⟨(ih log).1, ?_⟩
        intro e0 he0
        unfold dueEvents at he0
        rw [List.filter_cons, if_pos (by simp [reminderDue, hrt])] at he0
        rcases List.mem_cons.mp he0 with rfl | he0
        · obtain ⟨x, hx⟩ := (ih log).1
          have hal' : already_logged log (dueMessage now e0) = true := hal
          have hinf : (dueMessage now e0).data <:+: log.data := by
            by_contra hn
            rw [already_logged_false_of_not_contains hn] at hal'
            exact Bool.noConfusion hal'
          exact already_logged_true_of_contains (dueMessage_ne_empty now e0)
            (by rw [hx]; exact infix_append_left _ hinf)
        · exact (ih log).2 e0 he0
      · rw [sweepStep_send hrt (Bool.eq_false_iff.mpr hal)]
        obtain ⟨⟨x, hx⟩, hlogged⟩ :=
          ih (utilsLog log now (reminderLogMessage (get_reminder_type now e).1 e))
        refine ⟨⟨(if strContains (reminderLogMessage (get_reminder_type now e).1 e)
              "connected to Discord" = true then sepLine.data ++ [Char.ofNat 10] else [])
            ++ ((logLineBody now (reminderLogMessage (get_reminder_type now e).1 e)).data
                ++ Char.ofNat 10 :: x),
          by rw [hx, utilsLog_data]; simp [List.append_assoc]⟩, ?_⟩
        intro e0 he0
        unfold dueEvents at he0
        rw [List.filter_cons, if_pos (by simp [reminderDue, hrt])] at he0
        rcases List.mem_cons.mp he0 with rfl | he0
        · refine already_logged_true_of_contains (dueMessage_ne_empty now e0) ?_
          rw [hx]
          apply infix_append_left
          have hself : already_logged
              (utilsLog log now (reminderLogMessage (get_reminder_type now e0).1 e0))
              (dueMessage now e0) = true :=
            already_logged_utilsLog_self (dueMessage_ne_empty now e0)
          by_contra hn
          rw [already_logged_false_of_not_contains hn] at hself
          exact Bool.noConfusion hself
        · exact hlogged e0 he0

/-- A sweep over a ledger that already contains every due event's line sends
nothing and leaves the ledger untouched. -/
theorem sweepEvents_all_logged (now : Int) (evs : List SEvent) : ∀ log : String,
    (∀ e ∈ dueEvents now evs, already_logged log (dueMessage now e) = true) →
    sweepEvents now evs log = (evs.map (applyReminder now), log, []) := by
  induction evs with
  | nil => intro log _; rfl
  | cons e es ih =>
    intro log hall
    rw [sweepEvents_cons]
    have hstep : sweepStep now log e = (applyReminder now e, log, none) := by
      by_cases hrt : (get_reminder_type now e).1 = ""
      · exact sweepStep_skip (Or.inl hrt)
      · refine sweepStep_skip (Or.inr ?_)
        exact hall e (by
          unfold dueEvents
          rw [List.filter_cons, if_pos (by simp [reminderDue, hrt])]
          exact List.mem_cons_self e _)
    rw [hstep]
    have htail : ∀ e0 ∈ dueEvents now es, already_logged log (dueMessage now e0) = true := by
      intro e0 he0
      apply hall e0
      unfold dueEvents at he0 ⊢
      rw [List.filter_cons]
      split_ifs with h
      · exact List.mem_cons_of_mem e he0
      · exact he0
    rw [show ((applyReminder now e, log, none) : SEvent × String × Option String).2.1
        = log from rfl]
    rw [ih log htail]
    rfl

/-- Over a well-formed ledger that does not yet contain any due event's line,
with newline-free and pairwise non-interfering lines, the sweep sends exactly
the due events' canonical lines, in order. -/
theorem sweepEvents_fresh (now : Int) (evs : List SEvent) : ∀ log : String,
    logOk log →
    (∀ e ∈ dueEvents now evs, already_logged log (dueMessage now e) = false) →
    (∀ e ∈ dueEvents now evs, Char.ofNat 10 ∉ (dueMessage now e).data) →
    (∀ e ∈ dueEvents now evs, ¬ (dueMessage now e).data <:+: sepLine.data) →
    (dueEvents now evs).Pairwise (fun e e' =>
      ¬ (dueMessage now e).data <:+: (logLineBody now (dueMessage now e')).data ∧
      ¬ (dueMessage now e').data <:+: (logLineBody now (dueMessage now e)).data) →
    (sweepEvents now evs log).2.2 = dueMessages now evs := by
  induction evs with
  | nil => intro log _ _ _ _ _; rfl
  | cons e es ih =>
    intro log hOk hFresh hNl hSep hPair
    rw [sweepEvents_cons]
    by_cases hrt : (get_reminder_type now e).1 = ""
    · have hdue : dueEvents now (e :: es) = dueEvents now es := by
        unfold dueEvents
        rw [List.filter_cons, if_neg (by simp [reminderDue, hrt])]
      rw [hdue] at hFresh hNl hSep hPair
      rw [sweepStep_skip (Or.inl hrt)]
      have := ih log hOk hFresh hNl hSep hPair
      rw [show ((applyReminder now e, log, none) : SEvent × String × Option String).2.1
          = log from rfl]
      unfold dueMessages
      rw [hdue]
      exact this
    · have hdue : dueEvents now (e :: es) = e :: dueEvents now es := by
        unfold dueEvents
        rw [List.filter_cons, if_pos (by simp [reminderDue, hrt])]
      rw [hdue] at hFresh hNl hSep hPair
      have hme : already_logged log (dueMessage now e) = false :=
        hFresh e (List.mem_cons_self e _)
      have hstep : sweepStep now log e
          = (applyReminder now e,
             utilsLog log now (reminderLogMessage (get_reminder_type now e).1 e),
             some (reminderLogMessage (get_reminder_type now e).1 e)) :=
        sweepStep_send hrt hme
      rw [hstep]
      obtain ⟨hPairHead, hPairTail⟩ := List.pairwise_cons.mp hPair
      have hOk1 : logOk (utilsLog log now (reminderLogMessage (get_reminder_type now e).1 e)) :=
        logOk_utilsLog log now _
      have hFresh1 : ∀ e0 ∈ dueEvents now es,
          already_logged (utilsLog log now (reminderLogMessage (get_reminder_type now e).1 e))
            (dueMessage now e0) = false := by
        intro e0 he0
        have hR := hPairHead e0 he0
        exact already_logged_utilsLog_false hOk (dueMessage_ne_empty now e0)
          (hNl e0 (List.mem_cons_of_mem e he0))
          (hFresh e0 (List.mem_cons_of_mem e he0))
          (hSep e0 (List.mem_cons_of_mem e he0))
          hR.2
      have htail := ih (utilsLog log now (reminderLogMessage (get_reminder_type now e).1 e))
        hOk1 hFresh1
        (fun e0 he0 => hNl e0 (List.mem_cons_of_mem e he0))
        (fun e0 he0 => hSep e0 (List.mem_cons_of_mem e he0))
        hPairTail
      unfold dueMessages
      rw [hdue, List.map_cons]
      rw [show (((applyReminder now e,
          utilsLog log now (reminderLogMessage (get_reminder_type now e).1 e),
          some (reminderLogMessage (get_reminder_type now e).1 e)) :
          SEvent × String × Option String)).2.1
        = utilsLog log now (reminderLogMessage (get_reminder_type now e).1 e) from rfl]
      unfold dueMessages at htail
      rw [htail]
      rfl

theorem already_logged_utilsLog_mono {A m : String} (now : Int) (w : String)
    (h : already_logged A m = true) : already_logged (utilsLog A now w) m = true := by
  have hm : m ≠ "" := by
    intro hm
    rw [hm] at h
    simp [already_logged] at h
  have hinf : m.data <:+: A.data := by
    by_contra hn
    rw [already_logged_false_of_not_contains hn] at h
    exact Bool.noConfusion h
  apply already_logged_true_of_contains hm
  rw [utilsLog_data]
  exact infix_append_left _ (infix_append_left _ hinf)

/-- **C2** (confirmed).  Running the `eventreminders` sweep twice in
succession at the same instant over the same pending entries sends each
distinct due reminder exactly once.  Hypotheses set up the experiment: the
initial ledger file is well formed (empty or newline-terminated) and does
not already contain any due reminder's canonical line; the canonical lines
are newline-free and do not occur inside the separator line, inside the
"Checking for event reminders" line, or inside each other's ledger lines
(distinct (entry, type, start time) triples give such non-interfering
lines).  Conclusion: the first run sends exactly the canonical line of every
due event, in order and without duplicates — before sending, each line is
checked against the ledger and appended only after sending — and the second
run sends zero new notifications. -/
theorem eventreminders_dedup (now : Int) (events : List SEvent) (log0 : String)
    (hOk : logOk log0)
    (hFresh : ∀ e ∈ dueEvents now events,
      already_logged log0 (dueMessage now e) = false)
    (hNl : ∀ e ∈ dueEvents now events, Char.ofNat 10 ∉ (dueMessage now e).data)
    (hSep : ∀ e ∈ dueEvents now events,
      ¬ (dueMessage now e).data <:+: sepLine.data)
    (hChk : ∀ e ∈ dueEvents now events,
      ¬ (dueMessage now e).data <:+:
          (logLineBody now "Checking for event reminders").data)
    (hPair : (dueEvents now events).Pairwise (fun e e' =>
      ¬ (dueMessage now e).data <:+: (logLineBody now (dueMessage now e')).data ∧
      ¬ (dueMessage now e').data <:+: (logLineBody now (dueMessage now e)).data)) :
    (eventreminders now events log0).2.2 = dueMessages now events
    ∧ (eventreminders now events log0).2.2.Nodup
    ∧ (eventreminders now (eventreminders now events log0).1
        (eventreminders now events log0).2.1).2.2 = [] := by
  have hFresh1 : ∀ e ∈ dueEvents now events,
      already_logged (utilsLog log0 now "Checking for event reminders")
        (dueMessage now e) = false := by
    intro e he
    exact already_logged_utilsLog_false hOk (dueMessage_ne_empty now e) (hNl e he)
      (hFresh e he) (hSep e he) (hChk e he)
  have hsent1 : (eventreminders now events log0).2.2 = dueMessages now events :=
    sweepEvents_fresh now events _ (logOk_utilsLog _ _ _) hFresh1 hNl hSep hPair
  have hnodup : (dueMessages now events).Nodup := by
    unfold dueMessages List.Nodup
    refine List.Pairwise.map (dueMessage now) ?_ hPair
    intro a b hR hEq
    exact hR.1 (by rw [hEq]; exact infix_logLineBody_self now (dueMessage now b))
  refine ⟨hsent1, by rw [hsent1]; exact hnodup, ?_⟩
  have hlogged := (sweepEvents_logs_due now events
    (utilsLog log0 now "Checking for event reminders")).2
  have hev1 : (eventreminders now events log0).1 = events.map (applyReminder now) :=
    sweepEvents_fst now events _
  have hall2 : ∀ e' ∈ dueEvents now ((eventreminders now events log0).1),
      already_logged (utilsLog (eventreminders now events log0).2.1 now
        "Checking for event reminders") (dueMessage now e') = true := by
    intro e' he'
    rw [hev1] at he'
    unfold dueEvents at he'
    obtain ⟨hmem, hdue⟩ := List.mem_filter.mp he'
    obtain ⟨e, he, rfl⟩ := List.mem_map.mp hmem
    rw [reminderDue_applyReminder] at hdue
    rw [dueMessage_applyReminder]
    apply already_logged_utilsLog_mono
    exact hlogged e (by unfold dueEvents; exact List.mem_filter.mpr ⟨he, hdue⟩)
  have hrun2 := sweepEvents_all_logged now ((eventreminders now events log0).1)
    (utilsLog (eventreminders now events log0).2.1 now
      "Checking for event reminders") hall2
  show (sweepEvents now ((eventreminders now events log0).1)
      (utilsLog (eventreminders now events log0).2.1 now
        "Checking for event reminders")).2.2 = []
  rw [hrun2]

set_option maxRecDepth 100000 in
theorem eventreminders_dedup_witness :
    (eventreminders 0
        [⟨"Premier Match", "Ascent", 0, EventStatus.scheduled⟩,
         ⟨"Premier Match", "Ascent", 3600, EventStatus.scheduled⟩] "").2.2
      = dueMessages 0
          [⟨"Premier Match", "Ascent", 0, EventStatus.scheduled⟩,
           ⟨"Premier Match", "Ascent", 3600, EventStatus.scheduled⟩]
    ∧ (eventreminders 0
        (eventreminders 0
          [⟨"Premier Match", "Ascent", 0, EventStatus.scheduled⟩,
           ⟨"Premier Match", "Ascent", 3600, EventStatus.scheduled⟩] "").1
        (eventreminders 0
          [⟨"Premier Match", "Ascent", 0, EventStatus.scheduled⟩,
           ⟨"Premier Match", "Ascent", 3600, EventStatus.scheduled⟩] "").2.1).2.2
      = [] :=
  ⟨(eventreminders_dedup 0
      [⟨"Premier Match", "Ascent", 0, EventStatus.scheduled⟩,
       ⟨"Premier Match", "Ascent", 3600, EventStatus.scheduled⟩] ""
      (Or.inl rfl) (by decide) (by decide) (by decide) (by decide) (by decide)).1,
   (eventreminders_dedup 0
      [⟨"Premier Match", "Ascent", 0, EventStatus.scheduled⟩,
       ⟨"Premier Match", "Ascent", 3600, EventStatus.scheduled⟩] ""
      (Or.inl rfl) (by decide) (by decide) (by decide) (by decide) (by decide)).2.2⟩
